import Mathlib

/-!
# gosolr: shard-split orchestrator and shard range bounds

A shallow embedding of `solrman/smservice/split.go` (the split orchestrator, its
convergence check and its idempotent delete detection) and of the range-bounds
engine exercised by `solrmonitor/shardstate_test.go`.

Conventions of the embedding:

* a Go `map[string]V` is the list of its entries, in the order the `range` loop
  happens to visit them;
* a Go pointer that may be nil is an `Option`;
* a Go `error` is an `Option GoError` (`none` is the nil error);
* the collaborators (cluster-state watcher, admin client, clock, store) are an
  explicit record of the responses they give, `Env`;
* a run of the orchestrator yields what happened (`Exec`) and the calls it made to
  the collaborators, in order (`Event`).
-/

set_option autoImplicit false
set_option maxRecDepth 100000

namespace GoSolr

/-! ## Data model -/

/-- Modelled from the spec: the declaration of `solrmonitor.ShardState` is not among the
sources; the spec gives it a range string and an active flag. -/
structure ShardState where
  Range : String
  active : Bool
  deriving DecidableEq, Repr

/-- Modelled from the spec: `IsActive` is not among the sources; it reads the active flag. -/
def ShardState.IsActive (s : ShardState) : Bool := s.active

/-- Modelled from the spec: the declaration of `solrmonitor.CollectionState` is not among the
sources; the spec gives it a mapping from shard name to shard state. The map is the list of
its entries. -/
structure CollectionState where
  Shards : List (String × ShardState)
  deriving DecidableEq, Repr

/-- Modelled from the spec: the declaration of `solrmanapi.OpRecord` is not among the sources;
these are the fields `split.go` reads and writes. -/
structure OpRecord where
  Collection : String
  Shard : String
  Error : String
  FinishedMs : Int
  deriving DecidableEq, Repr

/-- Modelled from the spec: the declaration of `ErrorRsp` is not among the sources; the spec
gives it a numeric status code and a textual message. -/
structure ErrorRsp where
  Code : Int
  Msg : String
  deriving DecidableEq, Repr

/-- The dynamic types a Go `error` takes in `split.go`: a structured response, a chained error
(with its cause, or without one when it was built over a nil error), or anything else. -/
inductive GoError where
  | errorRsp (rsp : ErrorRsp)
  | chainedError (msg : String) (cause : GoError)
  | chainedNoCause (msg : String)
  | other (msg : String)
  deriving DecidableEq, Repr

/-- Modelled from the spec: `cherrf` is not among the sources; it wraps a cause (possibly nil)
in a chained error carrying the formatted message, and always yields an error. -/
def cherrf (cause : Option GoError) (msg : String) : GoError :=
  match cause with
  | some c => .chainedError msg c
  | none => .chainedNoCause msg

/-- Modelled from the spec: `errorf` is not among the sources; it yields an error carrying the
formatted message. -/
def errorf (msg : String) : GoError := .other msg

/-- Modelled from the spec: `chainedError.Root` is not among the sources; it is the deepest
cause of a chain, nil when the chain ends without a cause. On an error that is not chained
this is the error itself, so that `Root` is also the unwrapping step that opens
`isNoSuchShardError`. -/
def Root : GoError → Option GoError
  | .chainedError _ cause => Root cause
  | .chainedNoCause _ => none
  | e => some e

/-- The constant `http.StatusBadRequest`. -/
def StatusBadRequest : Int := 400

/-- The test of `strings.Contains` on the characters of the two strings: `substr` occurs in
`s`. -/
def containsChars (substr : List Char) : List Char → Bool
  | [] => substr.isEmpty
  | c :: cs => substr.isPrefixOf (c :: cs) || containsChars substr cs

/-- The call `strings.Contains(s, substr)`. -/
def stringsContains (s substr : String) : Bool := containsChars substr.data s.data

/-- The text `fmt.Sprintf("No shard with name %s exists for collection %s", shardName,
collName)` of `isNoSuchShardError`. -/
def noSuchShardText (collName shardName : String) : String :=
  "No shard with name " ++ shardName ++ " exists for collection " ++ collName

/-- The function `isNoSuchShardError` (lines 147 to 160): unwrap a chained error to its root,
then accept a structured response with status 400 whose message contains the expected text. -/
def isNoSuchShardError (err : GoError) (collName shardName : String) : Option ErrorRsp :=
  let err : Option GoError :=
    match err with
    | .chainedError msg cause => Root (.chainedError msg cause)
    | .chainedNoCause msg => Root (.chainedNoCause msg)
    | e => some e
  match err with
  | some (.errorRsp rsp) =>
    let s := noSuchShardText collName shardName
    if rsp.Code = StatusBadRequest ∧ stringsContains rsp.Msg s = true then some rsp else none
  | _ => none

/-! ## Convergence check -/

/-- A run-time panic of the Go program. -/
inductive Panic where
  | nilDereference
  deriving DecidableEq, Repr

/-- The function `activeShardExists` (lines 129 to 136): `coll` is a pointer; reading
`coll.Shards` through a nil pointer panics. -/
def activeShardExists (coll : Option CollectionState) (target : String) : Except Panic Bool :=
  match coll with
  | none => .error .nilDereference
  | some c => .ok (c.Shards.any fun e => e.1 == target && e.2.IsActive)

/-- The function `inactiveShardExists` (lines 138 to 145), with the same nil behaviour. -/
def inactiveShardExists (coll : Option CollectionState) (target : String) : Except Panic Bool :=
  match coll with
  | none => .error .nilDereference
  | some c => .ok (c.Shards.any fun e => e.1 == target && !e.2.IsActive)

/-- The condition of line 104 on which the polling loop breaks, with the left-to-right
short-circuit evaluation of `&&`. -/
def pollExitCondition (coll : Option CollectionState) (shard : String) : Except Panic Bool :=
  match activeShardExists coll (shard ++ "_0") with
  | .error p => .error p
  | .ok false => .ok false
  | .ok true =>
    match activeShardExists coll (shard ++ "_1") with
    | .error p => .error p
    | .ok false => .ok false
    | .ok true => inactiveShardExists coll shard

/-! ## The collaborators -/

/-- What one iteration of the polling loop is answered: the triple returned by
`checkRequestStatus` and the pair returned by `GetCollectionState`. -/
structure PollResponse where
  isDone : Bool
  errMsg : String
  statusErr : Option GoError
  coll : Option CollectionState
  collErr : Option GoError
  deriving DecidableEq, Repr

/-- The responses of the collaborators during one `runSplitOperation`: the initial
`GetCollectionState`, the generated request id, the `SplitShard` result, the answers to the
successive poll iterations, the `DeleteShard` result, the clock reading of `nowMillis`, and
whether each of the three store commands is carried out. -/
structure Env where
  initColl : Option CollectionState
  initErr : Option GoError
  requestId : String
  splitErr : Option GoError
  polls : List PollResponse
  deleteErr : Option GoError
  nowMs : Int
  hdelOk : Bool
  lpushOk : Bool
  ltrimOk : Bool
  deriving DecidableEq, Repr

/-- The calls the orchestrator makes to the watcher and the admin client, in program order.
A topology fetch records the topology it was handed. -/
inductive Event where
  | fetched (collection : String) (coll : Option CollectionState)
  | splitShard (collection shard requestId : String)
  | requestStatus (requestId : String)
  | sleep
  | deleteShard (collection shard : String)
  deriving DecidableEq, Repr

/-- How a piece of Go code ends: it returns a value, it panics, or it is still in the polling
loop when the recorded responses run out. -/
inductive Exec (α : Type) where
  | returned (a : α)
  | panicked (p : Panic)
  | polling
  deriving DecidableEq, Repr

/-- The result of `doRunSplitOperation` and the calls made on the way. -/
structure Run where
  outcome : Exec (Option GoError)
  trace : List Event
  deriving DecidableEq, Repr

/-- Go's `%q` on a string without characters that need escaping. -/
def quoted (s : String) : String :=
  String.singleton (Char.ofNat 34) ++ s ++ String.singleton (Char.ofNat 34)

/-- The polling loop of `doRunSplitOperation` (lines 84 to 111), one recorded response per
iteration. `none` as outcome means the loop was left by `break`. -/
def pollLoop (split : OpRecord) (requestId : String) :
    List PollResponse → Option (Exec (Option GoError)) × List Event
  | [] => (some .polling, [])
  | p :: rest =>
    match p.statusErr with
    | some err =>
      (some (.returned (some (cherrf (some err)
          ("failed to get status of request " ++ quoted requestId)))),
        [.requestStatus requestId])
    | none =>
      if p.errMsg ≠ "" then
        (some (.returned (some (errorf ("async SPLITSHARD failed: " ++ p.errMsg)))),
          [.requestStatus requestId])
      else
        match p.collErr with
        | some err =>
          (some (.returned (some (cherrf (some err) "failed to read cluster state"))),
            [.requestStatus requestId, .fetched split.Collection p.coll])
        | none =>
          match pollExitCondition p.coll split.Shard with
          | .error pn =>
            (some (.panicked pn), [.requestStatus requestId, .fetched split.Collection p.coll])
          | .ok true => (none, [.requestStatus requestId, .fetched split.Collection p.coll])
          | .ok false =>
            let r := pollLoop split requestId rest
            (r.1, [.requestStatus requestId, .fetched split.Collection p.coll, .sleep] ++ r.2)

/-- The finalizing step of `doRunSplitOperation` (lines 113 to 126). -/
def finalize (env : Env) (split : OpRecord) : Option GoError :=
  match env.deleteErr with
  | some err =>
    match isNoSuchShardError err split.Collection split.Shard with
    | some _ => none
    | none => some (cherrf (some err) "failed to issue DELETESHARD command")
  | none => none

/-- The function `doRunSplitOperation` (lines 59 to 127): validation, the split command, the
polling loop and the finalizing step, with the calls made on the way. -/
def doRunSplitOperation (env : Env) (split : OpRecord) : Run :=
  let ev0 := Event.fetched split.Collection env.initColl
  match env.initErr with
  | some err => ⟨.returned (some err), [ev0]⟩
  | none =>
    match env.initColl with
    | none => ⟨.returned (some (cherrf env.initErr "no such collection (maybe it disappeared?)")),
        [ev0]⟩
    | some coll =>
      if (coll.Shards.lookup split.Shard).isNone then
        ⟨.returned (some (cherrf env.initErr
            ("no such shard " ++ split.Shard ++ " in collection " ++ split.Collection))), [ev0]⟩
      else
        let ev1 := Event.splitShard split.Collection split.Shard env.requestId
        match env.splitErr with
        | some err =>
          ⟨.returned (some (cherrf (some err) "failed to issue SPLITSHARD command")), [ev0, ev1]⟩
        | none =>
          match pollLoop split env.requestId env.polls with
          | (some out, evs) => ⟨out, [ev0, ev1] ++ evs⟩
          | (none, evs) =>
            ⟨.returned (finalize env split),
              [ev0, ev1] ++ evs ++ [.deleteShard split.Collection split.Shard]⟩

/-! ## Recording the result -/

/-- Pure helpers of other packages that `runSplitOperation` calls and that are not among the
sources: the operation key (by the spec a composite of collection and shard), the JSON
serialization of a record, and the texts `%s` prints for a record and for an error. -/
structure Helpers where
  keyOf : String → String → String
  jsonString : OpRecord → String
  opString : OpRecord → String
  errString : GoError → String

/-- The method `split.Key()`. -/
def OpRecord.Key (h : Helpers) (r : OpRecord) : String := h.keyOf r.Collection r.Shard

/-- The durable store: the hash kept under `OpMapRedisKey` and the list kept under
`CompletedOpRedisKey`. -/
structure RedisStore where
  opMap : List (String × String)
  completedOps : List String
  deriving DecidableEq, Repr

/-- The three store commands `runSplitOperation` sends. -/
inductive RedisCmd where
  | HDEL (field : String)
  | LPUSH (value : String)
  | LTRIM (start stop : Nat)
  deriving DecidableEq, Repr

/-- The effect of a store command that is carried out: `HDEL` removes the field, `LPUSH` puts
the value in front of the list, `LTRIM start stop` keeps the entries with index `start` to
`stop`, both included. -/
def RedisStore.exec (st : RedisStore) : RedisCmd → RedisStore
  | .HDEL field => { st with opMap := st.opMap.filter fun e => e.1 ≠ field }
  | .LPUSH value => { st with completedOps := value :: st.completedOps }
  | .LTRIM start stop =>
    { st with completedOps := (st.completedOps.drop start).take (stop + 1 - start) }

/-- One `conn.Do`: the command takes effect when the store carries it out; a failed command is
only logged and leaves the store as it was. -/
def connDo (ok : Bool) (cmd : RedisCmd) (st : RedisStore) : RedisStore :=
  if ok then st.exec cmd else st

/-- The part of `SolrManService` that `runSplitOperation` changes: the in-progress registry
(a map from operation key to record) and the store behind `RedisPool`. -/
structure SolrManService where
  inProgressOps : List (String × OpRecord)
  redis : RedisStore
  deriving DecidableEq, Repr

/-- Go's `delete(m, key)`. -/
def mapDelete {V : Type} (m : List (String × V)) (key : String) : List (String × V) :=
  m.filter fun e => e.1 ≠ key

/-- Lines 29 to 37 of `runSplitOperation`: the record after the outcome of
`doRunSplitOperation` has been written to it. -/
def recordOutcome (h : Helpers) (env : Env) (split : OpRecord) (err : Option GoError) :
    OpRecord :=
  match err with
  | some e =>
    { split with
      Error := "failed SplitShard request: " ++ h.opString split ++ " with err: " ++
        h.errString e
      FinishedMs := env.nowMs }
  | none => { split with FinishedMs := env.nowMs }

/-- Lines 39 to 55 of `runSplitOperation`: release the key, then the three store commands. -/
def releaseAndArchive (h : Helpers) (env : Env) (s : SolrManService) (split : OpRecord) :
    SolrManService :=
  let ops := mapDelete s.inProgressOps (split.Key h)
  let st := connDo env.hdelOk (.HDEL (split.Key h)) s.redis
  let st := connDo env.lpushOk (.LPUSH (h.jsonString split)) st
  let st := connDo env.ltrimOk (.LTRIM 0 99) st
  { inProgressOps := ops, redis := st }

/-- The function `runSplitOperation` (lines 28 to 56): the service and the record as they are
when it returns. There is no `recover`, so a panic of `doRunSplitOperation` ends the run before
anything is recorded. -/
def runSplitOperation (h : Helpers) (env : Env) (s : SolrManService) (split : OpRecord) :
    Exec (SolrManService × OpRecord) :=
  match (doRunSplitOperation env split).outcome with
  | .panicked p => .panicked p
  | .polling => .polling
  | .returned err =>
    let split := recordOutcome h env split err
    .returned (releaseAndArchive h env s split, split)

/-- Operations that finish one after another: each is run on the service the previous one left.
Yields the final service and the finished records, most recent first; `none` when one of the
runs does not return. -/
def runAll (h : Helpers) (s : SolrManService) :
    List (Env × OpRecord) → Option (SolrManService × List OpRecord)
  | [] => some (s, [])
  | job :: rest =>
    match runSplitOperation h job.1 s job.2 with
    | .returned (s1, r) =>
      match runAll h s1 rest with
      | some (s2, rs) => some (s2, rs ++ [r])
      | none => none
    | _ => none

/-! ## Range bounds -/

/-- The three failures of `computeBounds`, each with the text it quotes, as the expectations of
`TestComputeBounds` show them. -/
inductive BoundsError where
  | split (rangeStr : String)
  | parse (token : String)
  | validation (rangeStr : String)
  deriving DecidableEq, Repr

/-- The text `err.Error()` gives, as `TestComputeBounds` expects it. -/
def BoundsError.Error : BoundsError → String
  | .split r => "failed to split " ++ quoted r
  | .parse t => "failed to parse " ++ quoted t
  | .validation r => "low should be <= high " ++ quoted r

/-- The `bounds` struct of the tests: `low` and `hi` (Go `int32`) and `err`. -/
structure bounds where
  low : Int
  hi : Int
  err : Option BoundsError
  deriving DecidableEq, Repr

/-- The value of one hexadecimal digit, either case. -/
def hexDigit (c : Char) : Option Nat :=
  if '0' ≤ c ∧ c ≤ '9' then some (c.toNat - 48)
  else if 'a' ≤ c ∧ c ≤ 'f' then some (c.toNat - 87)
  else if 'A' ≤ c ∧ c ≤ 'F' then some (c.toNat - 55)
  else none

/-- The value of a run of hexadecimal digits, most significant first, continuing from `acc`. -/
def hexValueFrom (acc : Nat) : List Char → Option Nat
  | [] => some acc
  | c :: cs =>
    match hexDigit c with
    | none => none
    | some d => hexValueFrom (acc * 16 + d) cs

/-- Modelled from the spec: the parser of one half of a range is not among the sources; a half
is a 32-bit hexadecimal value without a sign: at least one digit, only hexadecimal digits, and
a value below 2^32. -/
def parseHex32 (token : String) : Option Nat :=
  if token.data = [] then none
  else
    match hexValueFrom 0 token.data with
    | none => none
    | some v => if v < 2 ^ 32 then some v else none

/-- Go's `int32(x)` of a 32-bit pattern: the two's-complement reading. -/
def toInt32 (n : Nat) : Int := if n < 2 ^ 31 then (n : Int) else (n : Int) - 2 ^ 32

/-- Go's `uint32(x)` of an `int32`: the same 32-bit pattern read without sign. -/
def toUint32 (i : Int) : Nat := (i % 2 ^ 32).toNat

/-- Modelled from the spec: `computeBounds` is not among the sources (its tests are). Split on
the single separator, parse each half as 32-bit hexadecimal, read both as signed, and require
low to be at most high; the first failure met is the error. -/
def computeBounds (rangeStr : String) : bounds :=
  match rangeStr.data.splitOn '-' with
  | [lo, hi] =>
    match parseHex32 ⟨lo⟩ with
    | none => ⟨0, 0, some (.parse ⟨lo⟩)⟩
    | some l =>
      match parseHex32 ⟨hi⟩ with
      | none => ⟨0, 0, some (.parse ⟨hi⟩)⟩
      | some u =>
        if toInt32 l ≤ toInt32 u then ⟨toInt32 l, toInt32 u, none⟩
        else ⟨0, 0, some (.validation rangeStr)⟩
  | _ => ⟨0, 0, some (.split rangeStr)⟩

/-- The helper `assertBounds` of the tests: true when it reports no failure. Errors are
compared by their text, and the numbers only when no error is expected. -/
def assertBounds (expected actual : bounds) : Bool :=
  match expected.err with
  | some e =>
    match actual.err with
    | none => false
    | some a => e.Error == a.Error
  | none =>
    match actual.err with
    | some _ => false
    | none => expected.low == actual.low && expected.hi == actual.hi

/-- Modelled from the spec: `RangeBounds` is not among the sources; it is `computeBounds` of
the shard's range string (the memoization does not change the result). -/
def ShardState.RangeBounds (s : ShardState) : bounds := computeBounds s.Range

/-- Modelled from the spec: the interval width on the ring of 2^32 hash values; the
subtraction of the two unsigned readings wraps modulo 2^32, the final `+ 1` does not. -/
def rangeWidth (low high : Int) : Nat :=
  (((toUint32 high : Int) - (toUint32 low : Int)) % 2 ^ 32).toNat + 1

/-- Modelled from the spec: `HashRangeShare` is not among the sources (its tests are); it is
the width over 2^32, and zero when the range does not parse. The quotient of an integer of at
most 33 bits by 2^32 is exact in a `float64`, so the share is given as a rational. -/
def ShardState.HashRangeShare (s : ShardState) : ℚ :=
  let b := s.RangeBounds
  match b.err with
  | some _ => 0
  | none => (rangeWidth b.low b.hi : ℚ) / 2 ^ 32

/-- The helper `tolerance` of the tests, on rationals. -/
def tolerance (a b e : ℚ) : Bool :=
  let d := a - b
  let d := if d < 0 then -d else d
  let e := if b ≠ 0 then (if e * b < 0 then -(e * b) else e * b) else e
  decide (d < e)

/-- The helper `kindaclose` of the tests, with its tolerance of 1e-8. -/
def kindaclose (a b : ℚ) : Bool := tolerance a b (1 / 10 ^ 8)

/-- The helper `assertHashRangeShare` of the tests: true when it reports no failure. -/
def assertHashRangeShare (expected : ℚ) (rangeStr : String) : Bool :=
  kindaclose (ShardState.HashRangeShare ⟨rangeStr, true⟩) expected

/-! ## Sample data -/

/-- Sample helpers: a key, a serialization and the two `%s` texts. -/
def sampleHelpers : Helpers where
  keyOf := fun c sh => "SplitShard:" ++ c ++ ":" ++ sh
  jsonString := fun r => r.Collection ++ "/" ++ r.Shard ++ "/" ++ r.Error
  opString := fun r => r.Collection ++ "/" ++ r.Shard
  errString := fun e =>
    match e with
    | .errorRsp rsp => rsp.Msg
    | .chainedError msg _ => msg
    | .chainedNoCause msg => msg
    | .other msg => msg

/-- A request to split shard `shard1` of collection `coll`. -/
def sampleSplit : OpRecord := ⟨"coll", "shard1", "", 0⟩

/-- The topology before the split: the parent alone, active. -/
def topologyBefore : CollectionState := ⟨[("shard1", ⟨"80000000-7fffffff", true⟩)]⟩

/-- The topology while the split runs: the children exist and are not yet active. -/
def topologyDuring : CollectionState :=
  ⟨[("shard1", ⟨"80000000-7fffffff", true⟩), ("shard1_0", ⟨"80000000-ffffffff", false⟩),
    ("shard1_1", ⟨"0-7fffffff", false⟩)]⟩

/-- The topology after the split: both children active, the parent inactive. -/
def topologyAfter : CollectionState :=
  ⟨[("shard1", ⟨"80000000-7fffffff", false⟩), ("shard1_0", ⟨"80000000-ffffffff", true⟩),
    ("shard1_1", ⟨"0-7fffffff", true⟩)]⟩

/-- A poll iteration that reports no failure and hands out the given topology. -/
def quietPoll (coll : Option CollectionState) : PollResponse := ⟨false, "", none, coll, none⟩

/-- A run that converges at the second poll and whose delete succeeds. -/
def envConverging : Env where
  initColl := some topologyBefore
  initErr := none
  requestId := "req-1"
  splitErr := none
  polls := [quietPoll (some topologyDuring), quietPoll (some topologyAfter)]
  deleteErr := none
  nowMs := 1700000000000
  hdelOk := true
  lpushOk := true
  ltrimOk := true

/-- The same run, with a delete that fails because the shard is already gone: a chained error
over a status-400 response. -/
def envAlreadyDeleted : Env :=
  { envConverging with
    deleteErr := some (.chainedError "delete failed"
      (.errorRsp ⟨400, "No shard with name shard1 exists for collection coll"⟩)) }

/-- The same run, with a delete that fails for another reason. -/
def envDeleteFails : Env :=
  { envConverging with deleteErr := some (.errorRsp ⟨500, "server error"⟩) }

/-- A run whose collection is absent at validation time. -/
def envNoCollection : Env := { envConverging with initColl := none }

/-- A run whose collection disappears while the split is polled: the watcher hands out an
absent topology, without an error, at the first poll. -/
def envCollectionVanishes : Env := { envConverging with polls := [quietPoll none] }

/-- A service with two operations in progress and an empty store. -/
def sampleService : SolrManService :=
  ⟨[("SplitShard:coll:shard1", sampleSplit), ("SplitShard:coll:shard2", ⟨"coll", "shard2", "", 0⟩)],
    ⟨[("SplitShard:coll:shard1", "coll/shard1/"), ("SplitShard:coll:shard2", "coll/shard2/")],
      []⟩⟩

/-- A request on the collection whose name is `n` times the letter c; the requests of
different `n` have different serializations. -/
def numberedSplit (n : Nat) : OpRecord := ⟨String.mk (List.replicate n 'c'), "shard1", "", 0⟩

/-- The jobs `numberedSplit 0`, ..., `numberedSplit (n - 1)`, in this order, each one failing at
validation with every store command carried out. -/
def numberedJobs (n : Nat) : List (Env × OpRecord) :=
  (List.range n).map fun i => (envNoCollection, numberedSplit i)

/-- The run `envConverging` on `sampleSplit` (collection `coll`), with a delete that fails with
a status-400 response about the other collection `coll2`. -/
def envOtherCollection : Env :=
  { envConverging with
    deleteErr := some (.errorRsp ⟨400, "No shard with name shard1 exists for collection coll2"⟩) }

/-! ## Convergence check: facts -/

theorem any_active_iff (l : List (String × ShardState)) (t : String) :
    (l.any fun e => e.1 == t && e.2.IsActive) = true ↔
      ∃ st, (t, st) ∈ l ∧ st.active = true := by
  simp only [List.any_eq_true, Bool.and_eq_true, beq_iff_eq, ShardState.IsActive]
  constructor
  · rintro ⟨⟨n, st⟩, hmem, hn, ha⟩
    exact ⟨st, by simpa [← hn] using hmem, ha⟩
  · rintro ⟨st, hmem, ha⟩
    exact ⟨(t, st), hmem, rfl, ha⟩

theorem any_inactive_iff (l : List (String × ShardState)) (t : String) :
    (l.any fun e => e.1 == t && !e.2.IsActive) = true ↔
      ∃ st, (t, st) ∈ l ∧ st.active = false := by
  simp only [List.any_eq_true, Bool.and_eq_true, beq_iff_eq, ShardState.IsActive,
    Bool.not_eq_true']
  constructor
  · rintro ⟨⟨n, st⟩, hmem, hn, ha⟩
    exact ⟨st, by simpa [← hn] using hmem, ha⟩
  · rintro ⟨st, hmem, ha⟩
    exact ⟨(t, st), hmem, rfl, ha⟩

/-- On a topology that is present the exit condition is the conjunction of the three checks
and never panics. -/
theorem pollExitCondition_some (coll : CollectionState) (S : String) :
    pollExitCondition (some coll) S = .ok
      ((coll.Shards.any fun e => e.1 == S ++ "_0" && e.2.IsActive) &&
        (coll.Shards.any fun e => e.1 == S ++ "_1" && e.2.IsActive) &&
        (coll.Shards.any fun e => e.1 == S && !e.2.IsActive)) := by
  unfold pollExitCondition activeShardExists inactiveShardExists
  cases h0 : (coll.Shards.any fun e => e.1 == S ++ "_0" && e.2.IsActive) <;>
    cases h1 : (coll.Shards.any fun e => e.1 == S ++ "_1" && e.2.IsActive) <;>
    simp [h0, h1]

/-- On an absent topology the exit condition panics. -/
theorem pollExitCondition_none (S : String) :
    pollExitCondition none S = .error .nilDereference := rfl

/-- The exit condition holds exactly on the converged topologies. -/
theorem pollExitCondition_ok_true_iff (coll : CollectionState) (S : String) :
    pollExitCondition (some coll) S = .ok true ↔
      (∃ st, (S ++ "_0", st) ∈ coll.Shards ∧ st.active = true) ∧
      (∃ st, (S ++ "_1", st) ∈ coll.Shards ∧ st.active = true) ∧
      (∃ st, (S, st) ∈ coll.Shards ∧ st.active = false) := by
  rw [pollExitCondition_some, ← any_active_iff, ← any_active_iff, ← any_inactive_iff]
  simp [Bool.and_eq_true, and_assoc]

/-- C1: on every topology and for every shard name S, the condition on which the polling loop
exits holds exactly when the topology has active shards named S_0 and S_1 and a shard named S
that is not active; it always evaluates to true or false; it is false when S is absent, and
false when either child is missing or inactive. -/
theorem pollExitCondition_iff (coll : CollectionState) (S : String) :
    (pollExitCondition (some coll) S = .ok true ↔
      (∃ st, (S ++ "_0", st) ∈ coll.Shards ∧ st.active = true) ∧
      (∃ st, (S ++ "_1", st) ∈ coll.Shards ∧ st.active = true) ∧
      (∃ st, (S, st) ∈ coll.Shards ∧ st.active = false)) ∧
    (pollExitCondition (some coll) S = .ok true ∨
      pollExitCondition (some coll) S = .ok false) ∧
    (S ∉ coll.Shards.map Prod.fst → pollExitCondition (some coll) S = .ok false) ∧
    ((∀ st, (S ++ "_0", st) ∈ coll.Shards → st.active = false) →
      pollExitCondition (some coll) S = .ok false) ∧
    ((∀ st, (S ++ "_1", st) ∈ coll.Shards → st.active = false) →
      pollExitCondition (some coll) S = .ok false) := by
  have key : pollExitCondition (some coll) S = .ok true ↔
      (∃ st, (S ++ "_0", st) ∈ coll.Shards ∧ st.active = true) ∧
      (∃ st, (S ++ "_1", st) ∈ coll.Shards ∧ st.active = true) ∧
      (∃ st, (S, st) ∈ coll.Shards ∧ st.active = false) :=
    pollExitCondition_ok_true_iff coll S
  have tot : pollExitCondition (some coll) S = .ok true ∨
      pollExitCondition (some coll) S = .ok false := by
    rw [pollExitCondition_some]
    cases ((coll.Shards.any fun e => e.1 == S ++ "_0" && e.2.IsActive) &&
        (coll.Shards.any fun e => e.1 == S ++ "_1" && e.2.IsActive) &&
        (coll.Shards.any fun e => e.1 == S && !e.2.IsActive)) <;> simp
  have neg : ∀ {P : Prop}, (P → ¬ ((∃ st, (S ++ "_0", st) ∈ coll.Shards ∧ st.active = true) ∧
      (∃ st, (S ++ "_1", st) ∈ coll.Shards ∧ st.active = true) ∧
      (∃ st, (S, st) ∈ coll.Shards ∧ st.active = false))) →
      P → pollExitCondition (some coll) S = .ok false := by
    intro P hP hp
    rcases tot with h | h
    · exact absurd (key.mp h) (hP hp)
    · exact h
  refine ⟨key, tot, neg ?_, neg ?_, neg ?_⟩
  · rintro habs ⟨_, _, st, hmem, _⟩
    exact habs (List.mem_map.mpr ⟨(S, st), hmem, rfl⟩)
  · rintro hall ⟨⟨st, hmem, ha⟩, _⟩
    have := hall st hmem
    simp [ha] at this
  · rintro hall ⟨_, ⟨st, hmem, ha⟩, _⟩
    have := hall st hmem
    simp [ha] at this

/-! ## The orchestrator: shape of a run -/

/-- An event is the issue of a delete-shard command. -/
theorem pollLoop_no_delete (split : OpRecord) (rid : String) (polls : List PollResponse) :
    ∀ e ∈ (pollLoop split rid polls).2, ∀ c sh, e ≠ Event.deleteShard c sh := by
  induction polls with
  | nil => simp [pollLoop]
  | cons p rest ih =>
    intro e he c sh
    unfold pollLoop at he
    split at he
    · simp at he; simp [he]
    · split at he
      · simp at he; simp [he]
      · split at he
        · simp at he; rcases he with he | he <;> simp [he]
        · split at he
          · simp at he; rcases he with he | he <;> simp [he]
          · simp at he; rcases he with he | he <;> simp [he]
          · simp only [List.cons_append, List.nil_append, List.mem_cons] at he
            rcases he with he | he | he | he
            · simp [he]
            · simp [he]
            · simp [he]
            · exact ih e he c sh

/-- When the polling loop is left by `break`, the last thing it did was to fetch a topology
that is present and satisfies the exit condition. -/
theorem pollLoop_break (split : OpRecord) (rid : String) (polls : List PollResponse) :
    ∀ evs, pollLoop split rid polls = (none, evs) →
      ∃ evs0 coll, evs = evs0 ++ [Event.fetched split.Collection (some coll)] ∧
        pollExitCondition (some coll) split.Shard = .ok true := by
  induction polls with
  | nil => intro evs h; simp [pollLoop] at h
  | cons p rest ih =>
    intro evs h
    unfold pollLoop at h
    split at h
    · simp at h
    · split at h
      · simp at h
      · split at h
        · simp at h
        · split at h
          · simp at h
          · rename_i hc
            cases hp : p.coll with
            | none => rw [hp, pollExitCondition_none] at hc; cases hc
            | some coll =>
              rw [hp] at hc h
              simp only [Prod.mk.injEq, true_and] at h
              exact ⟨[.requestStatus rid], coll, by rw [← h]; rfl, hc⟩
          · simp only [Prod.mk.injEq] at h
            obtain ⟨evs0, coll, he, hc⟩ := ih _ (Prod.ext h.1 rfl)
            refine ⟨[.requestStatus rid, .fetched split.Collection p.coll, .sleep] ++ evs0,
              coll, ?_, hc⟩
            rw [← h.2]
            simp [he]

/-- A run either issues no delete-shard command at all, or it passed validation, issued the
split without error, left the polling loop by `break`, and ends with the finalizing step. -/
theorem doRunSplitOperation_shape (env : Env) (split : OpRecord) :
    (∀ e ∈ (doRunSplitOperation env split).trace, ∀ c sh, e ≠ Event.deleteShard c sh) ∨
    (∃ evs coll, env.initErr = none ∧ env.initColl = some coll ∧
      (coll.Shards.lookup split.Shard).isNone = false ∧ env.splitErr = none ∧
      pollLoop split env.requestId env.polls = (none, evs) ∧
      doRunSplitOperation env split =
        ⟨.returned (finalize env split),
          [.fetched split.Collection env.initColl,
            .splitShard split.Collection split.Shard env.requestId] ++ evs ++
            [.deleteShard split.Collection split.Shard]⟩) := by
  unfold doRunSplitOperation
  cases hie : env.initErr with
  | some err => left; simp
  | none =>
    cases hic : env.initColl with
    | none => left; simp
    | some coll =>
      cases hl : (coll.Shards.lookup split.Shard).isNone with
      | true => left; simp [hl]
      | false =>
        cases hs : env.splitErr with
        | some err => left; simp [hl]
        | none =>
          rcases hp : pollLoop split env.requestId env.polls with ⟨out, evs⟩
          cases out with
          | some out =>
            left
            have hnd := pollLoop_no_delete split env.requestId env.polls
            rw [hp] at hnd
            intro e he c sh
            simp only [hl, Bool.false_eq_true, if_false, List.cons_append, List.nil_append,
              List.mem_cons] at he
            rcases he with he | he | he
            · simp [he]
            · simp [he]
            · exact hnd e he c sh
          | none =>
            right
            exact ⟨evs, coll, rfl, rfl, hl, rfl, rfl, by simp [hl]⟩

/-- A list without an element of some kind, followed by one element, is cut in only one way
before an element of that kind. -/
theorem cut_before_last {α : Type} (P : α → Prop) (d d0 : α) (hd : P d) :
    ∀ (L pre post : List α), (∀ x ∈ L, ¬ P x) → pre ++ d :: post = L ++ [d0] →
      pre = L ∧ d = d0 ∧ post = [] := by
  intro L
  induction L with
  | nil =>
    intro pre post _ h
    cases pre with
    | nil => simp at h; exact ⟨rfl, h.1, h.2⟩
    | cons a pre => simp at h
  | cons x L ih =>
    intro pre post hL h
    cases pre with
    | nil =>
      simp only [List.nil_append, List.cons_append, List.cons.injEq] at h
      exact absurd (h.1 ▸ hd) (hL x (List.mem_cons_self _ _))
    | cons a pre =>
      simp only [List.cons_append, List.cons.injEq] at h
      obtain ⟨h1, h2, h3⟩ := ih pre post (fun y hy => hL y (List.mem_cons_of_mem _ hy)) h.2
      exact ⟨by rw [h.1, h1], h2, h3⟩

/-- The key of an association list is looked up successfully exactly when it is among the
keys. -/
theorem lookup_isNone_iff {V : Type} (k : String) (l : List (String × V)) :
    (l.lookup k).isNone = true ↔ k ∉ l.map Prod.fst := by
  induction l with
  | nil => simp
  | cons e l ih =>
    obtain ⟨a, v⟩ := e
    by_cases hk : k = a
    · subst hk; simp [List.lookup]
    · have : (k == a) = false := by simpa using hk
      simp [List.lookup, this, ih, hk]

/-- The unwrapping that opens `isNoSuchShardError` is `Root`. -/
theorem isNoSuchShardError_eq (err : GoError) (C S : String) :
    isNoSuchShardError err C S =
      match Root err with
      | some (.errorRsp rsp) =>
        if rsp.Code = StatusBadRequest ∧ stringsContains rsp.Msg (noSuchShardText C S) = true
        then some rsp else none
      | _ => none := by
  cases err <;> simp [isNoSuchShardError, Root]

/-! ## The orchestrator: contracts -/

theorem recorded_error_ne_empty (a b : String) :
    "failed SplitShard request: " ++ a ++ " with err: " ++ b ≠ "" := by
  intro h
  have := congrArg String.data h
  simp at this

/-- C4: when the initial topology fetch returns an error, or an absent topology, or a topology
without the operation's shard, `doRunSplitOperation` returns an error after that one fetch,
with no split-shard and no delete-shard command issued, and `runSplitOperation` returns with
the record marked as failed: its Error field is not empty. -/
theorem validation_failure_recorded (h : Helpers) (env : Env) (s : SolrManService)
    (split : OpRecord)
    (hbad : env.initErr ≠ none ∨ env.initColl = none ∨
      ∃ coll, env.initColl = some coll ∧ split.Shard ∉ coll.Shards.map Prod.fst) :
    (∃ err, (doRunSplitOperation env split).outcome = .returned (some err)) ∧
    (doRunSplitOperation env split).trace = [.fetched split.Collection env.initColl] ∧
    (∀ e ∈ (doRunSplitOperation env split).trace,
      (∀ c sh r, e ≠ Event.splitShard c sh r) ∧ ∀ c sh, e ≠ Event.deleteShard c sh) ∧
    ∃ s1 r, runSplitOperation h env s split = .returned (s1, r) ∧ r.Error ≠ "" ∧
      r.FinishedMs = env.nowMs := by
  have hrun : ∃ err, doRunSplitOperation env split =
      ⟨.returned (some err), [.fetched split.Collection env.initColl]⟩ := by
    unfold doRunSplitOperation
    cases hie : env.initErr with
    | some err => exact ⟨err, rfl⟩
    | none =>
      cases hic : env.initColl with
      | none => exact ⟨_, rfl⟩
      | some coll =>
        rcases hbad with hb | hb | ⟨coll1, hc, hb⟩
        · exact absurd hie hb
        · rw [hic] at hb; cases hb
        · rw [hic] at hc
          cases hc
          have hl := (lookup_isNone_iff split.Shard coll.Shards).mpr hb
          refine ⟨cherrf none
            ("no such shard " ++ split.Shard ++ " in collection " ++ split.Collection), ?_⟩
          simp [hl]
  obtain ⟨err, herr⟩ := hrun
  refine ⟨⟨err, by rw [herr]⟩, by rw [herr], ?_, ?_⟩
  · intro e he
    rw [herr] at he
    simp only [List.mem_singleton] at he
    subst he
    simp
  · refine ⟨_, _, by simp only [runSplitOperation, herr]; rfl, ?_, rfl⟩
    exact recorded_error_ne_empty _ _

/-- C4, at a run whose collection is absent at validation time. -/
theorem validation_failure_recorded_witness :
    envNoCollection.initColl = none ∧
    ∃ s1 r, runSplitOperation sampleHelpers envNoCollection sampleService sampleSplit =
      .returned (s1, r) ∧ r.Error ≠ "" ∧ r.FinishedMs = envNoCollection.nowMs :=
  ⟨rfl, (validation_failure_recorded sampleHelpers envNoCollection sampleService sampleSplit
    (Or.inr (Or.inl rfl))).2.2.2⟩

/-- C2: when the run reaches the finalizing step and the delete-shard call fails with an
error whose root cause is a status-400 response with a message containing "No shard with name
S exists for collection C", `doRunSplitOperation` returns no error and `runSplitOperation`
returns with the record's Error field unchanged (empty when it was empty) and its finish
timestamp set. -/
theorem idempotent_delete_is_success (h : Helpers) (env : Env) (s : SolrManService)
    (split : OpRecord) (err : GoError) (rsp : ErrorRsp)
    (hreach : Event.deleteShard split.Collection split.Shard ∈
      (doRunSplitOperation env split).trace)
    (hdel : env.deleteErr = some err)
    (hroot : Root err = some (.errorRsp rsp))
    (hcode : rsp.Code = 400)
    (hmsg : stringsContains rsp.Msg
      ("No shard with name " ++ split.Shard ++ " exists for collection " ++ split.Collection)
      = true) :
    (doRunSplitOperation env split).outcome = .returned none ∧
    ∃ s1 r, runSplitOperation h env s split = .returned (s1, r) ∧
      r.Error = split.Error ∧ (split.Error = "" → r.Error = "") ∧
      r.FinishedMs = env.nowMs := by
  have hfin : finalize env split = none := by
    unfold finalize
    rw [hdel]
    simp only
    rw [isNoSuchShardError_eq, hroot]
    have : stringsContains rsp.Msg (noSuchShardText split.Collection split.Shard) = true := hmsg
    simp [hcode, StatusBadRequest, this]
  have hout : (doRunSplitOperation env split).outcome = .returned none := by
    rcases doRunSplitOperation_shape env split with hno | ⟨evs, coll, _, _, _, _, _, hrun⟩
    · exact absurd rfl (hno _ hreach split.Collection split.Shard)
    · rw [hrun, hfin]
  refine ⟨hout, releaseAndArchive h env s (recordOutcome h env split none),
    recordOutcome h env split none, by simp only [runSplitOperation, hout], rfl,
    fun he => he, rfl⟩

/-- C2, at a run whose delete fails with a chained error over the status-400 response naming
this shard and collection. -/
theorem idempotent_delete_is_success_witness :
    (doRunSplitOperation envAlreadyDeleted sampleSplit).outcome = .returned none ∧
    ∃ s1 r, runSplitOperation sampleHelpers envAlreadyDeleted sampleService sampleSplit =
        .returned (s1, r) ∧
      r.Error = sampleSplit.Error ∧ (sampleSplit.Error = "" → r.Error = "") ∧
      r.FinishedMs = envAlreadyDeleted.nowMs :=
  idempotent_delete_is_success sampleHelpers envAlreadyDeleted sampleService sampleSplit
    (.chainedError "delete failed"
      (.errorRsp ⟨400, "No shard with name shard1 exists for collection coll"⟩))
    ⟨400, "No shard with name shard1 exists for collection coll"⟩
    (by decide) rfl rfl rfl (by decide)

/-- C5: a delete-shard command appears in the calls of `doRunSplitOperation` only as the last
call, for the operation's own collection and shard, after the split-shard command was issued
and answered without error, and right after a topology fetch that handed out a converged
topology (both children active, the parent present and inactive). When no fetched topology
satisfied the exit condition no delete is issued, and a run that returns an error after a
delete was issued failed at the delete itself. -/
theorem delete_only_after_convergence (env : Env) (split : OpRecord) :
    (∀ pre post c sh,
      (doRunSplitOperation env split).trace = pre ++ Event.deleteShard c sh :: post →
      c = split.Collection ∧ sh = split.Shard ∧ post = [] ∧ env.splitErr = none ∧
      ∃ pre0 coll, pre = pre0 ++ [Event.fetched split.Collection (some coll)] ∧
        Event.splitShard split.Collection split.Shard env.requestId ∈ pre0 ∧
        pollExitCondition (some coll) split.Shard = .ok true ∧
        (∃ st, (split.Shard ++ "_0", st) ∈ coll.Shards ∧ st.active = true) ∧
        (∃ st, (split.Shard ++ "_1", st) ∈ coll.Shards ∧ st.active = true) ∧
        (∃ st, (split.Shard, st) ∈ coll.Shards ∧ st.active = false)) ∧
    ((∀ coll, Event.fetched split.Collection (some coll) ∈
        (doRunSplitOperation env split).trace →
        pollExitCondition (some coll) split.Shard ≠ .ok true) →
      ∀ c sh, Event.deleteShard c sh ∉ (doRunSplitOperation env split).trace) ∧
    (∀ err c sh, (doRunSplitOperation env split).outcome = .returned (some err) →
      Event.deleteShard c sh ∈ (doRunSplitOperation env split).trace →
      ∃ e, env.deleteErr = some e ∧
        isNoSuchShardError e split.Collection split.Shard = none ∧
        err = cherrf (some e) "failed to issue DELETESHARD command") := by
  have hA : ∀ pre post c sh,
      (doRunSplitOperation env split).trace = pre ++ Event.deleteShard c sh :: post →
      c = split.Collection ∧ sh = split.Shard ∧ post = [] ∧ env.splitErr = none ∧
      ∃ pre0 coll, pre = pre0 ++ [Event.fetched split.Collection (some coll)] ∧
        Event.splitShard split.Collection split.Shard env.requestId ∈ pre0 ∧
        pollExitCondition (some coll) split.Shard = .ok true := by
    intro pre post c sh htr
    rcases doRunSplitOperation_shape env split with hno | ⟨evs, coll0, _, _, _, hs, hp, hrun⟩
    · exact absurd rfl (hno (Event.deleteShard c sh) (by rw [htr]; simp) c sh)
    · rw [hrun] at htr
      have hL : ∀ x ∈ [Event.fetched split.Collection env.initColl,
          Event.splitShard split.Collection split.Shard env.requestId] ++ evs,
          ¬ ∃ c sh, x = Event.deleteShard c sh := by
        intro x hx
        rintro ⟨c1, sh1, rfl⟩
        have hnd := pollLoop_no_delete split env.requestId env.polls
        rw [hp] at hnd
        simp only [List.cons_append, List.nil_append, List.mem_cons] at hx
        rcases hx with hx | hx | hx
        · cases hx
        · cases hx
        · exact hnd _ hx c1 sh1 rfl
      obtain ⟨h1, h2, h3⟩ := cut_before_last (fun e => ∃ c sh, e = Event.deleteShard c sh)
        (Event.deleteShard c sh) (Event.deleteShard split.Collection split.Shard)
        ⟨c, sh, rfl⟩ _ pre post hL htr.symm
      obtain ⟨evs0, coll, he, hc⟩ := pollLoop_break split env.requestId env.polls evs hp
      cases h2
      refine ⟨rfl, rfl, h3, hs, [Event.fetched split.Collection env.initColl,
        Event.splitShard split.Collection split.Shard env.requestId] ++ evs0, coll, ?_, ?_, hc⟩
      · rw [h1, he]; simp
      · simp
  refine ⟨?_, ?_, ?_⟩
  · intro pre post c sh htr
    obtain ⟨h1, h2, h3, h4, pre0, coll, h5, h6, h7⟩ := hA pre post c sh htr
    exact ⟨h1, h2, h3, h4, pre0, coll, h5, h6, h7,
      (pollExitCondition_ok_true_iff coll split.Shard).mp h7⟩
  · intro hnone c sh hmem
    obtain ⟨pre, post, htr⟩ := List.append_of_mem hmem
    obtain ⟨_, _, _, _, pre0, coll, h5, _, h7⟩ := hA pre post c sh htr
    exact hnone coll (by rw [htr, h5]; simp) h7
  · intro err c sh hout hmem
    rcases doRunSplitOperation_shape env split with hno | ⟨evs, coll0, _, _, _, _, _, hrun⟩
    · exact absurd rfl (hno _ hmem c sh)
    · rw [hrun] at hout
      simp only [Exec.returned.injEq] at hout
      unfold finalize at hout
      cases hd : env.deleteErr with
      | none => rw [hd] at hout; cases hout
      | some e =>
        rw [hd] at hout
        simp only at hout
        cases hn : isNoSuchShardError e split.Collection split.Shard with
        | some r => rw [hn] at hout; cases hout
        | none =>
          rw [hn] at hout
          simp only [Option.some.injEq] at hout
          exact ⟨e, rfl, hn, hout.symm⟩

/-- C5, at a run that converges at its second poll: the delete is its last call, and the call
before it fetched the converged topology. -/
theorem delete_only_after_convergence_witness :
    (doRunSplitOperation envConverging sampleSplit).trace =
      [.fetched "coll" (some topologyBefore), .splitShard "coll" "shard1" "req-1",
        .requestStatus "req-1", .fetched "coll" (some topologyDuring), .sleep,
        .requestStatus "req-1", .fetched "coll" (some topologyAfter)] ++
        Event.deleteShard "coll" "shard1" :: [] ∧
    envConverging.splitErr = none ∧
    pollExitCondition (some topologyAfter) "shard1" = .ok true :=
  have htr : (doRunSplitOperation envConverging sampleSplit).trace =
      [.fetched "coll" (some topologyBefore), .splitShard "coll" "shard1" "req-1",
        .requestStatus "req-1", .fetched "coll" (some topologyDuring), .sleep,
        .requestStatus "req-1", .fetched "coll" (some topologyAfter)] ++
        Event.deleteShard "coll" "shard1" :: [] := by decide
  ⟨htr, ((delete_only_after_convergence envConverging sampleSplit).1 _ _ _ _ htr).2.2.2.1,
    rfl⟩

/-- C6, failing input: the collection passes validation, the split is issued, and at the first
poll the watcher hands out an absent topology without an error. `activeShardExists` reads
`coll.Shards` through the nil pointer: `doRunSplitOperation` panics after the fetch and
`runSplitOperation` is aborted before the release and the store commands, whereas the same
absent topology at validation time is answered with an error. -/
theorem poll_absent_topology_panics :
    envCollectionVanishes.initColl = some topologyBefore ∧
    envCollectionVanishes.polls = [⟨false, "", none, none, none⟩] ∧
    doRunSplitOperation envCollectionVanishes sampleSplit =
      ⟨.panicked .nilDereference,
        [.fetched "coll" (some topologyBefore), .splitShard "coll" "shard1" "req-1",
          .requestStatus "req-1", .fetched "coll" none]⟩ ∧
    runSplitOperation sampleHelpers envCollectionVanishes sampleService sampleSplit =
      .panicked .nilDereference ∧
    (∃ err, (doRunSplitOperation envNoCollection sampleSplit).outcome =
      .returned (some err)) := by
  refine ⟨rfl, rfl, by decide, ?_, ⟨_, rfl⟩⟩
  have h : (doRunSplitOperation envCollectionVanishes sampleSplit).outcome =
      .panicked .nilDereference := by decide
  simp only [runSplitOperation, h]

/-- Whatever else the collaborators answer, a run that passes validation, issues the split and
is handed an absent topology without an error at its first poll panics. -/
theorem poll_absent_topology_panics_always (env : Env) (split : OpRecord)
    (coll : CollectionState) (p : PollResponse) (rest : List PollResponse)
    (hie : env.initErr = none) (hic : env.initColl = some coll)
    (hsh : (coll.Shards.lookup split.Shard).isNone = false) (hs : env.splitErr = none)
    (hp : env.polls = p :: rest) (h1 : p.statusErr = none) (h2 : p.errMsg = "")
    (h3 : p.collErr = none) (h4 : p.coll = none) :
    (doRunSplitOperation env split).outcome = .panicked .nilDereference := by
  unfold doRunSplitOperation
  simp [hie, hic, hsh, hs, hp, pollLoop, h1, h2, h3, h4, pollExitCondition_none]

/-- C7: `runSplitOperation` returns whenever `doRunSplitOperation` returns, with or without an
error and whatever the store answers; and when it returns, the in-progress registry is the
registry it started from with the operation's key deleted: that key is absent, and every
other key has the entries it had. -/
theorem registry_key_released (h : Helpers) (env : Env) (s : SolrManService)
    (split : OpRecord) :
    (∀ err, (doRunSplitOperation env split).outcome = .returned err →
      ∃ s1 r, runSplitOperation h env s split = .returned (s1, r)) ∧
    (∀ s1 r, runSplitOperation h env s split = .returned (s1, r) →
      r.Key h = split.Key h ∧
      s1.inProgressOps = mapDelete s.inProgressOps (split.Key h) ∧
      (∀ v, (split.Key h, v) ∉ s1.inProgressOps) ∧
      (∀ k v, k ≠ split.Key h → ((k, v) ∈ s1.inProgressOps ↔ (k, v) ∈ s.inProgressOps))) := by
  constructor
  · intro err hout
    exact ⟨releaseAndArchive h env s (recordOutcome h env split err),
      recordOutcome h env split err, by simp only [runSplitOperation, hout]⟩
  · intro s1 r hret
    unfold runSplitOperation at hret
    cases hout : (doRunSplitOperation env split).outcome with
    | panicked p => rw [hout] at hret; cases hret
    | polling => rw [hout] at hret; cases hret
    | returned err =>
      rw [hout] at hret
      simp only [Exec.returned.injEq, Prod.mk.injEq] at hret
      obtain ⟨hs1, hr⟩ := hret
      have hkey : r.Key h = split.Key h := by
        rw [← hr]; cases err <;> rfl
      have hops : s1.inProgressOps = mapDelete s.inProgressOps (split.Key h) := by
        rw [← hs1]
        show mapDelete s.inProgressOps ((recordOutcome h env split err).Key h) = _
        rw [hr, hkey]
      refine ⟨hkey, hops, ?_, ?_⟩
      · intro v hv
        rw [hops] at hv
        simp [mapDelete] at hv
      · intro k v hk
        rw [hops]
        simp [mapDelete, hk]

/-- C7, at a run that fails at validation: the key of the operation is released, the other
operation stays registered. -/
theorem registry_key_released_witness :
    ∃ s1 r, runSplitOperation sampleHelpers envNoCollection sampleService sampleSplit =
        .returned (s1, r) ∧
      s1.inProgressOps = [("SplitShard:coll:shard2", ⟨"coll", "shard2", "", 0⟩)] := by
  obtain ⟨s1, r, hret⟩ := (registry_key_released sampleHelpers envNoCollection sampleService
    sampleSplit).1 _ rfl
  refine ⟨s1, r, hret, ?_⟩
  rw [((registry_key_released sampleHelpers envNoCollection sampleService
    sampleSplit).2 s1 r hret).2.1]
  decide

/-! ## The completed history -/

theorem take_append_take {α : Type} (k : Nat) (b : List α) :
    ∀ (a : List α) (m : Nat), m ≤ k → (a ++ b.take k).take m = (a ++ b).take m := by
  intro a
  induction a with
  | nil =>
    intro m hm
    simp [List.take_take, Nat.min_eq_left hm]
  | cons x a ih =>
    intro m hm
    cases m with
    | zero => simp
    | succ m => simp [ih m (by omega)]

/-- One finished operation puts its serialization in front of the history and keeps the first
hundred entries, whether or not the `HDEL` was carried out. -/
theorem archive_step (h : Helpers) (env : Env) (s s1 : SolrManService) (split r : OpRecord)
    (hpush : env.lpushOk = true) (htrim : env.ltrimOk = true)
    (hret : runSplitOperation h env s split = .returned (s1, r)) :
    s1.redis.completedOps = (h.jsonString r :: s.redis.completedOps).take 100 := by
  unfold runSplitOperation at hret
  cases hout : (doRunSplitOperation env split).outcome with
  | panicked p => rw [hout] at hret; cases hret
  | polling => rw [hout] at hret; cases hret
  | returned err =>
    rw [hout] at hret
    simp only [Exec.returned.injEq, Prod.mk.injEq] at hret
    obtain ⟨hs1, hr⟩ := hret
    rw [← hs1, hr]
    cases hd : env.hdelOk <;>
      simp [releaseAndArchive, connDo, RedisStore.exec, hpush, htrim, hd]

theorem runAll_history (h : Helpers) :
    ∀ (jobs : List (Env × OpRecord)) (s s1 : SolrManService) (recs : List OpRecord),
      (∀ j ∈ jobs, j.1.lpushOk = true ∧ j.1.ltrimOk = true) →
      runAll h s jobs = some (s1, recs) →
      recs.length = jobs.length ∧
      (jobs ≠ [] → s1.redis.completedOps =
        (recs.map h.jsonString ++ s.redis.completedOps).take 100) := by
  intro jobs
  induction jobs with
  | nil =>
    intro s s1 recs _ hrun
    simp only [runAll, Option.some.injEq, Prod.mk.injEq] at hrun
    simp [← hrun.2]
  | cons job rest ih =>
    intro s s1 recs hok hrun
    unfold runAll at hrun
    cases hfirst : runSplitOperation h job.1 s job.2 with
    | panicked p => rw [hfirst] at hrun; cases hrun
    | polling => rw [hfirst] at hrun; cases hrun
    | returned res =>
      obtain ⟨sm, r⟩ := res
      rw [hfirst] at hrun
      simp only at hrun
      cases hrest : runAll h sm rest with
      | none => rw [hrest] at hrun; cases hrun
      | some res2 =>
        obtain ⟨s2, rs⟩ := res2
        rw [hrest] at hrun
        simp only [Option.some.injEq, Prod.mk.injEq] at hrun
        obtain ⟨hs2, hrecs⟩ := hrun
        subst hs2
        subst hrecs
        obtain ⟨hlen, hhist⟩ := ih sm s2 rs
          (fun j hj => hok j (List.mem_cons_of_mem _ hj)) hrest
        have hstep := archive_step h job.1 s sm job.2 r (hok job (List.mem_cons_self _ _)).1
          (hok job (List.mem_cons_self _ _)).2 hfirst
        refine ⟨by simp [hlen], fun _ => ?_⟩
        cases rest with
        | nil =>
          simp only [runAll, Option.some.injEq, Prod.mk.injEq] at hrest
          rw [← hrest.1, ← hrest.2, hstep]
          simp
        | cons j2 rest2 =>
          rw [hhist (by simp), hstep, take_append_take 100 _ _ 100 (le_refl _)]
          simp

/-- C8: with `LPUSH` putting a value in front of the list and `LTRIM 0 99` keeping the entries
with index 0 to 99, and with these two store commands carried out: after every
`runSplitOperation` that returns, the history has at most 100 entries and its first entry is
the serialization of the record just finished; and after operations that finish one after
another the history is the first 100 entries of their serializations, most recent first,
followed by what the history held before, so that after more than 100 of them it has exactly
100 entries, the serializations of the 100 most recently finished records, most recent
first. -/
theorem history_bounded (h : Helpers) :
    (∀ env s split s1 r, env.lpushOk = true → env.ltrimOk = true →
      runSplitOperation h env s split = .returned (s1, r) →
      s1.redis.completedOps.length ≤ 100 ∧
      s1.redis.completedOps.head? = some (h.jsonString r) ∧
      s1.redis.completedOps = (h.jsonString r :: s.redis.completedOps).take 100) ∧
    (∀ jobs s s1 recs, (∀ j ∈ jobs, j.1.lpushOk = true ∧ j.1.ltrimOk = true) →
      runAll h s jobs = some (s1, recs) →
      recs.length = jobs.length ∧
      (jobs ≠ [] → s1.redis.completedOps =
        (recs.map h.jsonString ++ s.redis.completedOps).take 100) ∧
      (100 < jobs.length → s1.redis.completedOps.length = 100 ∧
        s1.redis.completedOps = (recs.take 100).map h.jsonString)) := by
  constructor
  · intro env s split s1 r hpush htrim hret
    have hstep := archive_step h env s s1 split r hpush htrim hret
    rw [hstep]
    refine ⟨?_, by simp, rfl⟩
    rw [List.length_take]
    exact Nat.min_le_left _ _
  · intro jobs s s1 recs hok hrun
    obtain ⟨hlen, hhist⟩ := runAll_history h jobs s s1 recs hok hrun
    refine ⟨hlen, hhist, fun hbig => ?_⟩
    have hne : jobs ≠ [] := by
      intro he
      rw [he] at hbig
      simp at hbig
    have hl : 100 ≤ (recs.map h.jsonString).length := by
      rw [List.length_map, hlen]; omega
    have heq : s1.redis.completedOps = (recs.take 100).map h.jsonString := by
      rw [hhist hne, List.take_append_of_le_length hl, List.map_take]
    refine ⟨?_, heq⟩
    rw [heq, List.length_map, List.length_take, hlen]
    omega

/-- C8, at 101 operations that finish one after another on a store whose history is empty:
the history holds exactly the serializations of the last 100 of them, most recent first, and
the first one has been evicted. -/
theorem history_bounded_witness :
    ∃ s1 recs, runAll sampleHelpers sampleService (numberedJobs 101) = some (s1, recs) ∧
      s1.redis.completedOps.length = 100 ∧
      s1.redis.completedOps = (recs.take 100).map sampleHelpers.jsonString ∧
      recs.head? = some (recordOutcome sampleHelpers envNoCollection (numberedSplit 100)
        (some (cherrf none "no such collection (maybe it disappeared?)"))) := by
  have hsome : (runAll sampleHelpers sampleService (numberedJobs 101)).isSome = true := by
    decide
  obtain ⟨⟨s1, recs⟩, hrun⟩ := Option.isSome_iff_exists.mp hsome
  have hok : ∀ j ∈ numberedJobs 101, j.1.lpushOk = true ∧ j.1.ltrimOk = true := by
    intro j hj
    simp only [numberedJobs, List.mem_map] at hj
    obtain ⟨i, _, rfl⟩ := hj
    exact ⟨rfl, rfl⟩
  have hlen : 100 < (numberedJobs 101).length := by simp [numberedJobs]
  have hthm := (history_bounded sampleHelpers).2 (numberedJobs 101) sampleService s1 recs hok hrun
  refine ⟨s1, recs, hrun, (hthm.2.2 hlen).1, (hthm.2.2 hlen).2, ?_⟩
  have : (runAll sampleHelpers sampleService (numberedJobs 101)).map (fun x => x.2.head?) =
      some (some (recordOutcome sampleHelpers envNoCollection (numberedSplit 100)
        (some (cherrf none "no such collection (maybe it disappeared?)")))) := by
    decide
  rw [hrun] at this
  simpa using this

/-! ## Recognizing the delete of a shard that is already gone -/

/-- The test of `strings.Contains` holds exactly when the text occurs somewhere in the string. -/
theorem containsChars_iff (sub : List Char) :
    ∀ s : List Char, containsChars sub s = true ↔ ∃ a b, s = a ++ sub ++ b := by
  intro s
  induction s with
  | nil =>
    simp only [containsChars, List.isEmpty_iff]
    constructor
    · rintro rfl; exact ⟨[], [], rfl⟩
    · rintro ⟨a, b, h⟩
      have := congrArg List.length h
      simp at this
      exact List.length_eq_zero.mp (by omega)
  | cons c cs ih =>
    simp only [containsChars, Bool.or_eq_true, List.isPrefixOf_iff_prefix, ih]
    constructor
    · rintro (⟨b, hb⟩ | ⟨a, b, h⟩)
      · exact ⟨[], b, by simpa using hb.symm⟩
      · exact ⟨c :: a, b, by rw [h]; simp⟩
    · rintro ⟨a, b, h⟩
      cases a with
      | nil => left; exact ⟨b, by simpa using h.symm⟩
      | cons x a =>
        right
        simp only [List.cons_append, List.cons.injEq] at h
        exact ⟨a, b, h.2⟩

/-- Two texts that agree up to and including their first space have the same first word. -/
theorem first_word_eq :
    ∀ (x X u v : List Char), ' ' ∉ x → ' ' ∉ X → x ++ ' ' :: u = X ++ ' ' :: v →
      x = X ∧ u = v := by
  intro x
  induction x with
  | nil =>
    intro X u v _ hX h
    cases X with
    | nil => simpa using h
    | cons c X =>
      simp only [List.nil_append, List.cons_append, List.cons.injEq] at h
      exact absurd (h.1 ▸ List.mem_cons_self _ _) hX
  | cons c x ih =>
    intro X u v hx hX h
    cases X with
    | nil =>
      simp only [List.nil_append, List.cons_append, List.cons.injEq] at h
      exact absurd (h.1 ▸ List.mem_cons_self _ _) hx
    | cons d X =>
      simp only [List.cons_append, List.cons.injEq] at h
      obtain ⟨h1, h2⟩ := ih X u v (fun hm => hx (List.mem_cons_of_mem _ hm))
        (fun hm => hX (List.mem_cons_of_mem _ hm)) h.2
      exact ⟨by rw [h.1, h1], h2⟩

theorem noSuchShardText_data (C S : String) :
    (noSuchShardText C S).data =
      "No shard with name ".data ++ (S.data ++ (" exists for collection ".data ++ C.data)) := by
  simp [noSuchShardText, String.data_append]

/-- The expected text for shard S of collection C occurs in the message about shard S1 of
collection C1, both named without a space, exactly when S1 is S and C1 starts with C. -/
theorem noSuchShardText_contains_iff (C S C1 S1 : String)
    (hS : ' ' ∉ S1.data) (hC : ' ' ∉ C1.data) :
    stringsContains (noSuchShardText C1 S1) (noSuchShardText C S) = true ↔
      S1 = S ∧ ∃ t : String, C1 = C ++ t := by
  unfold stringsContains
  rw [containsChars_iff, noSuchShardText_data, noSuchShardText_data]
  have hP1 : "No shard with name ".data =
      ['N', 'o', ' ', 's', 'h', 'a', 'r', 'd', ' ', 'w', 'i', 't', 'h', ' ', 'n', 'a', 'm',
        'e', ' '] := rfl
  have hP2 : " exists for collection ".data =
      [' ', 'e', 'x', 'i', 's', 't', 's', ' ', 'f', 'o', 'r', ' ', 'c', 'o', 'l', 'l', 'e',
        'c', 't', 'i', 'o', 'n', ' '] := rfl
  constructor
  · rintro ⟨a, b, h⟩
    have hcount := congrArg (List.count ' ') h
    rw [hP1, hP2] at hcount
    simp only [List.count_append, List.count_cons, List.count_nil,
      List.count_eq_zero_of_not_mem hS, List.count_eq_zero_of_not_mem hC] at hcount
    simp at hcount
    have ha : ' ' ∉ a := by
      rw [← List.count_eq_zero]; omega
    have hanil : a = [] := by
      rw [hP1] at h
      match a, ha, h with
      | [], _, _ => rfl
      | [c], _, h => simp at h
      | [c, d], _, h => simp at h
      | c :: d :: e :: a, ha, h =>
        simp only [List.cons_append, List.cons.injEq] at h
        exact absurd (h.2.2.1 ▸ (by simp : e ∈ c :: d :: e :: a)) ha
    subst hanil
    simp only [List.nil_append, List.append_assoc, List.append_cancel_left_eq] at h
    simp only [List.cons_append] at h
    have hs : ' ' ∉ S.data := by
      rw [← List.count_eq_zero]; omega
    obtain ⟨h1, h2⟩ := first_word_eq S1.data S.data _ _ hS hs h
    simp only [List.cons.injEq, true_and] at h2
    refine ⟨String.ext h1, ⟨b⟩, String.ext ?_⟩
    simpa [String.data_append] using h2
  · rintro ⟨rfl, t, rfl⟩
    exact ⟨[], t.data, by simp [String.data_append]⟩

/-- A delete that was issued and failed with an error that is not recognized makes
`doRunSplitOperation` return an error. -/
theorem unrecognized_delete_failure (env : Env) (split : OpRecord) (e : GoError)
    (hreach : Event.deleteShard split.Collection split.Shard ∈
      (doRunSplitOperation env split).trace)
    (hdel : env.deleteErr = some e)
    (hno : isNoSuchShardError e split.Collection split.Shard = none) :
    (doRunSplitOperation env split).outcome =
      .returned (some (cherrf (some e) "failed to issue DELETESHARD command")) := by
  rcases doRunSplitOperation_shape env split with hnd | ⟨evs, coll, _, _, _, _, _, hrun⟩
  · exact absurd rfl (hnd _ hreach split.Collection split.Shard)
  · rw [hrun]
    simp [finalize, hdel, hno]

/-- C3, as stated, fails: the status-400 response "No shard with name shard1 exists for
collection coll2" is recognized for collection `coll` and shard `shard1`, although `coll2` is
not `coll`; the split of `coll` then returns without an error. -/
theorem noSuchShard_other_collection_accepted :
    Root (.errorRsp ⟨400, "No shard with name shard1 exists for collection coll2"⟩) =
      some (.errorRsp ⟨400, "No shard with name " ++ "shard1" ++ " exists for collection " ++
        "coll2"⟩) ∧
    isNoSuchShardError (.errorRsp ⟨400, "No shard with name shard1 exists for collection coll2"⟩)
      "coll" "shard1" ≠ none ∧
    ¬ ("shard1" = "shard1" ∧ "coll2" = "coll") ∧
    (doRunSplitOperation envOtherCollection sampleSplit).outcome = .returned none := by
  refine ⟨by decide, by decide, by decide, by decide⟩

/-- C3, amended: `isNoSuchShardError err C S` yields a response exactly when the root cause of
`err` is a status-400 response whose message contains the text "No shard with name S exists
for collection C"; when that message is "No shard with name S1 exists for collection C1" with
S1 and C1 free of spaces, this is so exactly when S1 is S and C1 starts with C; and after any
delete failure for which it yields nothing, `doRunSplitOperation` returns an error. -/
theorem noSuchShard_recognized_iff :
    (∀ err C S, isNoSuchShardError err C S ≠ none ↔
      ∃ rsp, Root err = some (.errorRsp rsp) ∧ rsp.Code = 400 ∧
        ∃ a b, rsp.Msg.data =
          a ++ ("No shard with name " ++ S ++ " exists for collection " ++ C).data ++ b) ∧
    (∀ err rsp C C1 S S1, ' ' ∉ S1.data → ' ' ∉ C1.data →
      Root err = some (.errorRsp rsp) → rsp.Code = 400 →
      rsp.Msg = "No shard with name " ++ S1 ++ " exists for collection " ++ C1 →
      (isNoSuchShardError err C S ≠ none ↔ S1 = S ∧ ∃ t : String, C1 = C ++ t)) ∧
    (∀ env split e,
      Event.deleteShard split.Collection split.Shard ∈ (doRunSplitOperation env split).trace →
      env.deleteErr = some e →
      isNoSuchShardError e split.Collection split.Shard = none →
      ∃ err, (doRunSplitOperation env split).outcome = .returned (some err)) := by
  have hchar : ∀ err C S rsp, Root err = some (.errorRsp rsp) →
      (isNoSuchShardError err C S ≠ none ↔
        rsp.Code = 400 ∧ stringsContains rsp.Msg (noSuchShardText C S) = true) := by
    intro err C S rsp hroot
    rw [isNoSuchShardError_eq, hroot]
    simp only [StatusBadRequest]
    by_cases hc : rsp.Code = 400 ∧ stringsContains rsp.Msg (noSuchShardText C S) = true
    · simp [hc]
    · simp [hc]
  refine ⟨?_, ?_, ?_⟩
  · intro err C S
    constructor
    · intro hne
      cases hroot : Root err with
      | none => rw [isNoSuchShardError_eq, hroot] at hne; exact absurd rfl hne
      | some e =>
        cases e with
        | errorRsp rsp =>
          obtain ⟨hc, hm⟩ := (hchar err C S rsp hroot).mp hne
          exact ⟨rsp, rfl, hc, (containsChars_iff _ _).mp hm⟩
        | chainedError m c => rw [isNoSuchShardError_eq, hroot] at hne; exact absurd rfl hne
        | chainedNoCause m => rw [isNoSuchShardError_eq, hroot] at hne; exact absurd rfl hne
        | other m => rw [isNoSuchShardError_eq, hroot] at hne; exact absurd rfl hne
    · rintro ⟨rsp, hroot, hc, hm⟩
      exact (hchar err C S rsp hroot).mpr ⟨hc, (containsChars_iff _ _).mpr hm⟩
  · intro err rsp C C1 S S1 hS hC hroot hc hmsg
    rw [hchar err C S rsp hroot, hmsg]
    simp only [hc, true_and]
    exact noSuchShardText_contains_iff C S C1 S1 hS hC
  · intro env split e hreach hdel hno
    exact ⟨_, unrecognized_delete_failure env split e hreach hdel hno⟩

/-- C3 amended, at the response about shard `shard1` of collection `coll2`: it is recognized
for `coll` and `shard1`, and for no other shard; and a delete that fails with status 500 makes
the run return an error. -/
theorem noSuchShard_recognized_iff_witness :
    (isNoSuchShardError (.errorRsp ⟨400, "No shard with name shard1 exists for collection coll2"⟩)
      "coll" "shard1" ≠ none ↔ "shard1" = "shard1" ∧ ∃ t : String, "coll2" = "coll" ++ t) ∧
    (isNoSuchShardError (.errorRsp ⟨400, "No shard with name shard1 exists for collection coll2"⟩)
      "coll2" "shard" ≠ none ↔ "shard1" = "shard" ∧ ∃ t : String, "coll2" = "coll2" ++ t) ∧
    ∃ err, (doRunSplitOperation envDeleteFails sampleSplit).outcome = .returned (some err) :=
  ⟨noSuchShard_recognized_iff.2.1 _ ⟨400, _⟩ "coll" "coll2" "shard1" "shard1" (by decide)
      (by decide) rfl rfl rfl,
    noSuchShard_recognized_iff.2.1 _ ⟨400, _⟩ "coll2" "coll2" "shard" "shard1" (by decide)
      (by decide) rfl rfl rfl,
    noSuchShard_recognized_iff.2.2 envDeleteFails sampleSplit _ (by decide) rfl (by decide)⟩

/-! ## Range bounds: facts -/

theorem hexValueFrom_digits :
    ∀ (cs : List Char) (acc v : Nat), hexValueFrom acc cs = some v →
      ∀ c ∈ cs, hexDigit c ≠ none := by
  intro cs
  induction cs with
  | nil => intro acc v _ c hc; simp at hc
  | cons d cs ih =>
    intro acc v h c hc
    unfold hexValueFrom at h
    cases hd : hexDigit d with
    | none => rw [hd] at h; cases h
    | some n =>
      rw [hd] at h
      rcases List.mem_cons.mp hc with rfl | hc
      · rw [hd]; simp
      · exact ih _ v h c hc

/-- A half that parses holds no separator. -/
theorem parseHex32_no_dash (token : String) (v : Nat) (h : parseHex32 token = some v) :
    '-' ∉ token.data := by
  unfold parseHex32 at h
  split at h
  · cases h
  · cases hv : hexValueFrom 0 token.data with
    | none => rw [hv] at h; cases h
    | some w =>
      intro hmem
      exact hexValueFrom_digits token.data 0 w hv '-' hmem (by decide)

/-- A half that parses is below 2^32. -/
theorem parseHex32_lt (token : String) (v : Nat) (h : parseHex32 token = some v) :
    v < 2 ^ 32 := by
  unfold parseHex32 at h
  split at h
  · cases h
  · cases hv : hexValueFrom 0 token.data with
    | none => rw [hv] at h; cases h
    | some w =>
      rw [hv] at h
      simp only at h
      split at h
      · cases h; assumption
      · cases h

theorem split_two_halves (lo hi : String) (hlo : '-' ∉ lo.data) (hhi : '-' ∉ hi.data) :
    (lo ++ "-" ++ hi).data.splitOn '-' = [lo.data, hi.data] := by
  have h : (['-'].intercalate [lo.data, hi.data]).splitOn '-' = [lo.data, hi.data] :=
    List.splitOn_intercalate [lo.data, hi.data] '-'
      (by intro l hl; simp at hl; rcases hl with rfl | rfl <;> assumption) (by simp)
  simpa [List.intercalate, String.data_append] using h

/-- On two halves that parse, `computeBounds` compares the signed readings. -/
theorem computeBounds_of_halves (lo hi : String) (a b : Nat)
    (hlo : parseHex32 lo = some a) (hhi : parseHex32 hi = some b) :
    computeBounds (lo ++ "-" ++ hi) =
      if toInt32 a ≤ toInt32 b then ⟨toInt32 a, toInt32 b, none⟩
      else ⟨0, 0, some (.validation (lo ++ "-" ++ hi))⟩ := by
  unfold computeBounds
  rw [split_two_halves lo hi (parseHex32_no_dash lo a hlo) (parseHex32_no_dash hi b hhi)]
  simp only [hlo, hhi]

/-- An error-free result of `computeBounds` is a pair of 32-bit signed values in order. -/
theorem computeBounds_ordered (rangeStr : String) (h : (computeBounds rangeStr).err = none) :
    (computeBounds rangeStr).low ≤ (computeBounds rangeStr).hi ∧
    -2 ^ 31 ≤ (computeBounds rangeStr).low ∧ (computeBounds rangeStr).hi < 2 ^ 31 := by
  unfold computeBounds at h ⊢
  split
  · rename_i lo hi hsplit
    rw [hsplit] at h
    simp only at h
    cases hl : parseHex32 ⟨lo⟩ with
    | none => rw [hl] at h; cases h
    | some l =>
      rw [hl] at h
      simp only at h ⊢
      cases hu : parseHex32 ⟨hi⟩ with
      | none => rw [hu] at h; cases h
      | some u =>
        rw [hu] at h
        simp only at h ⊢
        have h1 := parseHex32_lt _ l hl
        have h2 := parseHex32_lt _ u hu
        by_cases hle : toInt32 l ≤ toInt32 u
        · rw [if_pos hle]
          refine ⟨hle, ?_, ?_⟩
          · show -2 ^ 31 ≤ toInt32 l
            unfold toInt32; split <;> omega
          · show toInt32 u < 2 ^ 31
            unfold toInt32; split <;> omega
        · simp [hle] at h
  · rename_i hsplit
    split at h
    · rename_i lo hi heq
      exact absurd heq (hsplit lo hi)
    · cases h

/-- C9: for every range string made of two halves that each parse as a hexadecimal value of at
most 32 bits, `computeBounds` returns without error exactly when the signed reading of low is
at most that of high, and then returns that signed pair; otherwise it fails with the
validation error "low should be <= high". Every error-free result has low at most high. -/
theorem computeBounds_signed_order :
    (∀ lo hi a b, parseHex32 lo = some a → parseHex32 hi = some b →
      ((computeBounds (lo ++ "-" ++ hi)).err = none ↔ toInt32 a ≤ toInt32 b) ∧
      (toInt32 a ≤ toInt32 b →
        computeBounds (lo ++ "-" ++ hi) = ⟨toInt32 a, toInt32 b, none⟩) ∧
      (¬ toInt32 a ≤ toInt32 b →
        (computeBounds (lo ++ "-" ++ hi)).err = some (.validation (lo ++ "-" ++ hi)) ∧
        (BoundsError.validation (lo ++ "-" ++ hi)).Error =
          "low should be <= high " ++ quoted (lo ++ "-" ++ hi))) ∧
    (∀ rangeStr, (computeBounds rangeStr).err = none →
      (computeBounds rangeStr).low ≤ (computeBounds rangeStr).hi) ∧
    computeBounds "80000000-7fffffff" = ⟨-2147483648, 2147483647, none⟩ ∧
    computeBounds "ffffffff-0" = ⟨-1, 0, none⟩ ∧
    computeBounds "3-3" = ⟨3, 3, none⟩ ∧
    computeBounds "4-0" = ⟨0, 0, some (.validation "4-0")⟩ := by
  refine ⟨?_, fun r hr => (computeBounds_ordered r hr).1, by decide, by decide, by decide,
    by decide⟩
  intro lo hi a b hlo hhi
  rw [computeBounds_of_halves lo hi a b hlo hhi]
  by_cases hle : toInt32 a ≤ toInt32 b
  · simp [hle]
  · simp [hle, BoundsError.Error]

/-- C9, at the halves `ffffffff` and `0`, read as -1 and 0, and at `4` and `0`. -/
theorem computeBounds_signed_order_witness :
    parseHex32 "ffffffff" = some 4294967295 ∧ parseHex32 "0" = some 0 ∧
    computeBounds ("ffffffff" ++ "-" ++ "0") = ⟨-1, 0, none⟩ ∧
    (computeBounds ("4" ++ "-" ++ "0")).err = some (.validation ("4" ++ "-" ++ "0")) :=
  ⟨by decide, by decide,
    (computeBounds_signed_order.1 "ffffffff" "0" 4294967295 0 (by decide) (by decide)).2.1
      (by decide),
    ((computeBounds_signed_order.1 "4" "0" 4 0 (by decide) (by decide)).2.2 (by decide)).1⟩

/-- The expectations of `TestComputeBounds` hold. -/
theorem TestComputeBounds_passes :
    assertBounds ⟨-2147483648, 2147483647, none⟩ (computeBounds "80000000-7fffffff") = true ∧
    assertBounds ⟨0, 0x6eeeeee, none⟩ (computeBounds "00000000-06eeeeee") = true ∧
    assertBounds ⟨0, 0x5dddddd, none⟩ (computeBounds "0-5dddddd") = true ∧
    assertBounds ⟨-1, 0, none⟩ (computeBounds "ffffffff-0") = true ∧
    assertBounds ⟨3, 3, none⟩ (computeBounds "3-3") = true ∧
    assertBounds ⟨0, 0, some (.split "omg")⟩ (computeBounds "omg") = true ∧
    assertBounds ⟨0, 0, some (.parse "wtf")⟩ (computeBounds "80000000-wtf") = true ∧
    assertBounds ⟨0, 0, some (.parse "lol")⟩ (computeBounds "lol-7fffffff") = true ∧
    assertBounds ⟨0, 0, some (.validation "4-0")⟩ (computeBounds "4-0") = true := by
  refine ⟨by decide, by decide, by decide, by decide, by decide, by decide, by decide,
    by decide, by decide⟩

theorem rangeWidth_bounds (low high : Int) :
    1 ≤ rangeWidth low high ∧ rangeWidth low high ≤ 2 ^ 32 := by
  unfold rangeWidth
  have h1 := Int.emod_nonneg ((toUint32 high : Int) - (toUint32 low : Int))
    (by norm_num : (2 : Int) ^ 32 ≠ 0)
  have h2 := Int.emod_lt_of_pos ((toUint32 high : Int) - (toUint32 low : Int))
    (by norm_num : (0 : Int) < 2 ^ 32)
  constructor
  · omega
  · omega

/-- For signed 32-bit bounds in order the width is the number of values from low to high. -/
theorem rangeWidth_eq (low high : Int) (hle : low ≤ high) (hlow : -2 ^ 31 ≤ low)
    (hhigh : high < 2 ^ 31) : (rangeWidth low high : Int) = high - low + 1 := by
  unfold rangeWidth toUint32
  omega

/-- C10: for every shard whose range string parses without error to the signed bounds low and
high, `HashRangeShare` is width / 2^32, where width is the wrapping difference of the unsigned
readings plus one, the plus one not wrapping; so width is between 1 and 2^32 (it is the number
of values from low to high) and the share is above 0 and at most 1. The full ring has width
2^32, "0-3fffffff" has width 2^30, "0-1" and "FFFFFFFF-0" have width 2. -/
theorem hashRangeShare_is_width :
    (∀ shard : ShardState, (computeBounds shard.Range).err = none →
      shard.HashRangeShare =
        (rangeWidth (computeBounds shard.Range).low (computeBounds shard.Range).hi : ℚ) /
          2 ^ 32 ∧
      rangeWidth (computeBounds shard.Range).low (computeBounds shard.Range).hi =
        ((((computeBounds shard.Range).hi % 2 ^ 32 - (computeBounds shard.Range).low % 2 ^ 32)
          % 2 ^ 32).toNat + 1) ∧
      (rangeWidth (computeBounds shard.Range).low (computeBounds shard.Range).hi : Int) =
        (computeBounds shard.Range).hi - (computeBounds shard.Range).low + 1 ∧
      1 ≤ rangeWidth (computeBounds shard.Range).low (computeBounds shard.Range).hi ∧
      rangeWidth (computeBounds shard.Range).low (computeBounds shard.Range).hi ≤ 2 ^ 32 ∧
      0 < shard.HashRangeShare ∧ shard.HashRangeShare ≤ 1) ∧
    rangeWidth (computeBounds "80000000-7fffffff").low (computeBounds "80000000-7fffffff").hi
      = 2 ^ 32 ∧
    ShardState.HashRangeShare ⟨"80000000-7fffffff", true⟩ = 1 ∧
    rangeWidth (computeBounds "0-3fffffff").low (computeBounds "0-3fffffff").hi = 2 ^ 30 ∧
    ShardState.HashRangeShare ⟨"0-3fffffff", true⟩ = 1 / 4 ∧
    rangeWidth (computeBounds "0-1").low (computeBounds "0-1").hi = 2 ∧
    rangeWidth (computeBounds "FFFFFFFF-0").low (computeBounds "FFFFFFFF-0").hi = 2 := by
  have hgen : ∀ shard : ShardState, (computeBounds shard.Range).err = none →
      shard.HashRangeShare =
        (rangeWidth (computeBounds shard.Range).low (computeBounds shard.Range).hi : ℚ) /
          2 ^ 32 := by
    intro shard herr
    simp only [ShardState.HashRangeShare, ShardState.RangeBounds, herr]
  have hfull : computeBounds "80000000-7fffffff" = ⟨-2147483648, 2147483647, none⟩ := by
    decide
  have hquarter : computeBounds "0-3fffffff" = ⟨0, 1073741823, none⟩ := by decide
  refine ⟨?_, by decide, ?_, by decide, ?_, by decide, by decide⟩
  · intro shard herr
    obtain ⟨hle, hlow, hhigh⟩ := computeBounds_ordered shard.Range herr
    obtain ⟨hw1, hw2⟩ := rangeWidth_bounds (computeBounds shard.Range).low
      (computeBounds shard.Range).hi
    have hq1 : (1 : ℚ) ≤
        (rangeWidth (computeBounds shard.Range).low (computeBounds shard.Range).hi : ℚ) := by
      exact_mod_cast hw1
    have hq2 :
        (rangeWidth (computeBounds shard.Range).low (computeBounds shard.Range).hi : ℚ) ≤
          2 ^ 32 := by
      exact_mod_cast hw2
    refine ⟨hgen shard herr, ?_, rangeWidth_eq _ _ hle hlow hhigh, hw1, hw2, ?_, ?_⟩
    · unfold rangeWidth toUint32
      have h1 := Int.emod_nonneg (computeBounds shard.Range).hi
        (by norm_num : (2 : Int) ^ 32 ≠ 0)
      have h2 := Int.emod_nonneg (computeBounds shard.Range).low
        (by norm_num : (2 : Int) ^ 32 ≠ 0)
      rw [Int.toNat_of_nonneg h1, Int.toNat_of_nonneg h2]
    · rw [hgen shard herr]
      apply div_pos
      · linarith
      · norm_num
    · rw [hgen shard herr, div_le_one (by norm_num)]
      exact hq2
  · rw [hgen _ (by decide)]
    simp only [hfull]
    have : rangeWidth (-2147483648) 2147483647 = 2 ^ 32 := by decide
    rw [this]
    norm_num
  · rw [hgen _ (by decide)]
    simp only [hquarter]
    have : rangeWidth 0 1073741823 = 2 ^ 30 := by decide
    rw [this]
    norm_num

/-- C10, at the shard owning the full ring. -/
theorem hashRangeShare_is_width_witness :
    ShardState.HashRangeShare ⟨"80000000-7fffffff", true⟩ =
      (rangeWidth (computeBounds "80000000-7fffffff").low
        (computeBounds "80000000-7fffffff").hi : ℚ) / 2 ^ 32 ∧
    (0 : ℚ) < ShardState.HashRangeShare ⟨"80000000-7fffffff", true⟩ :=
  ⟨(hashRangeShare_is_width.1 ⟨"80000000-7fffffff", true⟩ (by decide)).1,
    (hashRangeShare_is_width.1 ⟨"80000000-7fffffff", true⟩ (by decide)).2.2.2.2.2.1⟩

theorem hashRangeShare_of_bounds (rangeStr : String) (active : Bool) (low high : Int) (w : Nat)
    (hb : computeBounds rangeStr = ⟨low, high, none⟩) (hw : rangeWidth low high = w) :
    ShardState.HashRangeShare ⟨rangeStr, active⟩ = (w : ℚ) / 2 ^ 32 := by
  simp only [ShardState.HashRangeShare, ShardState.RangeBounds, hb, hw]

/-- The expectations of `TestHashRangeShare` hold. -/
theorem TestHashRangeShare_passes :
    assertHashRangeShare 1 "80000000-7fffffff" = true ∧
    assertHashRangeShare (1 / 2) "80000000-0" = true ∧
    assertHashRangeShare (1 / 2) "0-7fffffff" = true ∧
    assertHashRangeShare (1 / 4) "80000000-C0000000" = true ∧
    assertHashRangeShare (1 / 4) "0-3fffffff" = true ∧
    assertHashRangeShare 0 "0-1" = true ∧
    assertHashRangeShare 0 "FFFFFFFF-0" = true := by
  refine ⟨?_, ?_, ?_, ?_, ?_, ?_, ?_⟩
  · rw [assertHashRangeShare, hashRangeShare_of_bounds _ _ (-2147483648) 2147483647 4294967296
      (by decide) (by decide)]
    simp only [kindaclose, tolerance]; norm_num
  · rw [assertHashRangeShare, hashRangeShare_of_bounds _ _ (-2147483648) 0 2147483649
      (by decide) (by decide)]
    simp only [kindaclose, tolerance]; norm_num
  · rw [assertHashRangeShare, hashRangeShare_of_bounds _ _ 0 2147483647 2147483648
      (by decide) (by decide)]
    simp only [kindaclose, tolerance]; norm_num
  · rw [assertHashRangeShare, hashRangeShare_of_bounds _ _ (-2147483648) (-1073741824)
      1073741825 (by decide) (by decide)]
    simp only [kindaclose, tolerance]; norm_num
  · rw [assertHashRangeShare, hashRangeShare_of_bounds _ _ 0 1073741823 1073741824
      (by decide) (by decide)]
    simp only [kindaclose, tolerance]; norm_num
  · rw [assertHashRangeShare, hashRangeShare_of_bounds _ _ 0 1 2 (by decide) (by decide)]
    simp only [kindaclose, tolerance]; norm_num
  · rw [assertHashRangeShare, hashRangeShare_of_bounds _ _ (-1) 0 2 (by decide) (by decide)]
    simp only [kindaclose, tolerance]; norm_num

end GoSolr
